import Mathlib

/-!
Verification of the globber pattern compiler and matcher (src/src/lib.rs).

Strings are modelled as `List Char` (the Rust code iterates over
`str::chars()`, so the character sequence is the faithful granularity).
Fallible results use `Except Unit` mirroring `Result<_, ()>`.
Runtime panics (calls of `Option::unwrap` on `None`) are modelled by the
matcher returning `none : Option Bool`; a normal boolean return is `some b`.
-/

/-- Segment of a multi-wildcard pattern; mirrors `enum Multipart` in the source
(lib.rs lines 169-175). -/
inductive Multipart where
  | ExactStart (s : List Char)
  | AnyUntil (s : List Char)
  | AnyUntilExactEnd (s : List Char)
  | AnyEnd
deriving DecidableEq, Repr

/-- Compiled pattern; mirrors `enum GlobPattern` (lib.rs lines 19-28). -/
inductive GlobPattern where
  | MatchAny
  | Multipart (parts : List Multipart)
  | MatchEnd (e : List Char)
  | MatchStart (s : List Char)
  | MatchBothEnds (s e : List Char)
  | MatchFull (f : List Char)
deriving DecidableEq, Repr

/-- Characters of the pattern strictly before its first `'*'`; models the Rust
slice `pattern[..wildcard]` where `wildcard = pattern.find('*')`. -/
def takeUntilStar : List Char → List Char
  | [] => []
  | c :: cs => if c = '*' then [] else c :: takeUntilStar cs

/-- Characters of the pattern strictly after its first `'*'`; models the Rust
slice `pattern[wildcard + 1..]`. -/
def dropPastStar : List Char → List Char
  | [] => []
  | c :: cs => if c = '*' then cs else dropPastStar cs

/-- The `while let Some(found) = pattern[pos..].find('*')` loop of
`build_glob_pattern` (lib.rs lines 218-227), operating on the remainder of the
pattern after a `'*'`. The accumulator holds the current literal segment in
reverse. Hitting a `'*'` emits an `AnyUntil`; end of input emits the trailing
`AnyUntilExactEnd`; a `'*'` that ends the pattern emits `AnyEnd`
(`pos == end`). -/
def buildRestAux : List Char → List Char → List Multipart
  | acc, [] => [Multipart.AnyUntilExactEnd acc.reverse]
  | acc, x :: xs =>
    if x = '*' then
      Multipart.AnyUntil acc.reverse ::
        (match xs with
          | [] => [Multipart.AnyEnd]
          | _ :: _ => buildRestAux [] xs)
    else buildRestAux (x :: acc) xs

/-- Segments built from the remainder of the pattern after the first `'*'`
of a multi-wildcard pattern: the early `if pos == end` check (lib.rs
lines 213-216) followed by the scanning loop and the trailing segment. -/
def buildRest : List Char → List Multipart
  | [] => [Multipart.AnyEnd]
  | r@(_ :: _) => buildRestAux [] r

/-- The shared tail of the multi-wildcard branch of `build_glob_pattern`
(lib.rs lines 213-239), after the first segment `first` has been pushed and
`pos` points just past the first wildcard; `r` is `pattern[pos..]`. The
`if pos == end` check at lib.rs lines 213-216 is an early return that pushes
`AnyEnd` and returns WITHOUT running the validation loop; only the longer
path (scanning loop, trailing segment) reaches the validation pass at
lib.rs lines 231-237. -/
def finishMultipart (first : Multipart) (r : List Char) : Except Unit GlobPattern :=
  if r = [] then
    Except.ok (GlobPattern.Multipart [first, Multipart.AnyEnd])
  else
    let parts := first :: buildRest r
    if parts.any (fun p => match p with | Multipart.AnyUntil s => s.isEmpty | _ => false) then
      Except.error ()
    else
      Except.ok (GlobPattern.Multipart parts)

/-- Pattern compiler; mirrors `build_glob_pattern` (lib.rs lines 177-241).
The validation pass that rejects an empty `AnyUntil` literal is skipped on
the `pos == end` early-return path (see `finishMultipart`), so the pattern
consisting of exactly two wildcards compiles to
`Multipart [AnyUntil [], AnyEnd]`. -/
def build_glob_pattern (pat : List Char) : Except Unit GlobPattern :=
  if pat = ['*'] then
    Except.ok GlobPattern.MatchAny
  else if ¬ pat.any (fun ch => ch == '*') then
    Except.ok (GlobPattern.MatchFull pat)
  else if pat.count '*' = 1 then
    match pat with
    | '*' :: rest => Except.ok (GlobPattern.MatchEnd rest)
    | _ =>
      if pat.getLast? = some '*' then
        Except.ok (GlobPattern.MatchStart pat.dropLast)
      else
        Except.ok (GlobPattern.MatchBothEnds (takeUntilStar pat) (dropPastStar pat))
  else
    match pat with
    | '*' :: rest => finishMultipart (Multipart.AnyUntil (takeUntilStar rest)) (dropPastStar rest)
    | _ => finishMultipart (Multipart.ExactStart (takeUntilStar pat)) (dropPastStar pat)

example : build_glob_pattern "**".toList =
    Except.ok (GlobPattern.Multipart [Multipart.AnyUntil [], Multipart.AnyEnd]) := by rfl
example : build_glob_pattern "***".toList = Except.error () := by rfl
example : build_glob_pattern "a**".toList = Except.error () := by rfl
example : build_glob_pattern "**a".toList = Except.error () := by rfl

example : build_glob_pattern "*".toList = Except.ok GlobPattern.MatchAny := by rfl
example : build_glob_pattern "test".toList = Except.ok (GlobPattern.MatchFull "test".toList) := by
  rfl
example : build_glob_pattern "test*".toList = Except.ok (GlobPattern.MatchStart "test".toList) := by
  rfl
example : build_glob_pattern "*test".toList = Except.ok (GlobPattern.MatchEnd "test".toList) := by
  rfl
example : build_glob_pattern "x*y".toList =
    Except.ok (GlobPattern.MatchBothEnds ['x'] ['y']) := by rfl
example : build_glob_pattern "*val*".toList =
    Except.ok (GlobPattern.Multipart [Multipart.AnyUntil "val".toList, Multipart.AnyEnd]) := by
  rfl
example : build_glob_pattern "val*whale*value".toList =
    Except.ok (GlobPattern.Multipart [Multipart.ExactStart "val".toList,
      Multipart.AnyUntil "whale".toList, Multipart.AnyUntilExactEnd "value".toList]) := by rfl
example : build_glob_pattern "*val*brawl*".toList =
    Except.ok (GlobPattern.Multipart [Multipart.AnyUntil "val".toList,
      Multipart.AnyUntil "brawl".toList, Multipart.AnyEnd]) := by rfl
example : build_glob_pattern "*val**".toList = Except.error () := by rfl
example : build_glob_pattern "".toList = Except.ok (GlobPattern.MatchFull []) := by rfl

/-! ### Matcher

The `Multipart` arm of `glob_match_prebuilt` (lib.rs lines 271-399) is one
outer loop over a character iterator with an inner loop per segment kind.
Each inner loop is modelled by a first-order function on the remaining
character list; `none : Option Bool` models a panic of `Option::unwrap`.
-/

/-- Result of the `for ch_st in start.chars()` loop of the `ExactStart` arm
(lib.rs lines 290-296): panic of `ch.unwrap()`, `return false`, or fall
through with the current lookahead character and iterator state. -/
inductive ExactRes where
  | panicked
  | failed
  | cont (ch : Option Char) (it : List Char)
deriving DecidableEq, Repr

/-- The `ExactStart` comparison loop: `ch` is the current lookahead character
(`Option<char>`), `it` the rest of the subject iterator. Note that after the
last successful comparison the loop has already pulled one more character
into `ch`; the outer loop then discards it by calling `next` again. -/
def exactStartLoop : List Char → Option Char → List Char → ExactRes
  | [], ch, it => ExactRes.cont ch it
  | _ :: _, none, _ => ExactRes.panicked
  | c :: cs, some a, it => if a = c then exactStartLoop cs it.head? it.tail else ExactRes.failed

/-- Result of the literal-comparison loop shared by `AnyUntil`
(lib.rs lines 323-337) and `AnyUntilExactEnd` (lib.rs lines 365-379):
`failed` is `return false` (subject exhausted mid-literal), `restart it` is
the mismatch break with iterator state `it` (just past the mismatching
character), `matched it` means the whole literal tail was matched. -/
inductive LitRes where
  | failed
  | restart (it : List Char)
  | matched (it : List Char)
deriving DecidableEq, Repr

/-- The literal-comparison loop: first argument is the not-yet-compared tail
of the literal, second the subject iterator. -/
def matchLit : List Char → List Char → LitRes
  | [], it => LitRes.matched it
  | _ :: _, [] => LitRes.failed
  | c :: cs, a :: it => if a = c then matchLit cs it else LitRes.restart it

/-- The first-character search loop (lib.rs lines 312-321 and 354-362):
advance the subject iterator until a character equal to `c` is pulled;
`some it` is the iterator state just past that character, `none` means the
subject ran out (`return false`). -/
def searchChar (c : Char) : List Char → Option (List Char)
  | [] => none
  | a :: it => if a = c then some it else searchChar c it

theorem searchChar_length {c : Char} :
    ∀ {it it2 : List Char}, searchChar c it = some it2 → it2.length ≤ it.length := by
  intro it
  induction it with
  | nil => intro it2 h; simp [searchChar] at h
  | cons a it ih =>
    intro it2 h
    simp only [searchChar] at h
    split at h
    · cases h; exact Nat.le_succ _
    · exact Nat.le_trans (ih h) (Nat.le_succ _)

theorem matchLit_restart_length :
    ∀ (us : List Char) {it it3 : List Char}, matchLit us it = LitRes.restart it3 →
      it3.length < it.length := by
  intro us
  induction us with
  | nil => intro it it3 h; simp [matchLit] at h
  | cons c cs ih =>
    intro it it3 h
    match it with
    | [] => simp [matchLit] at h
    | a :: it =>
      simp only [matchLit] at h
      split at h
      · exact Nat.lt_trans (ih h) (Nat.lt_succ_self _)
      · cases h; exact Nat.lt_succ_self _

theorem matchLit_matched_length :
    ∀ (us : List Char) {it it3 : List Char}, matchLit us it = LitRes.matched it3 →
      it3.length ≤ it.length := by
  intro us
  induction us with
  | nil => intro it it3 h; simp only [matchLit] at h; cases h; exact Nat.le_refl _
  | cons c cs ih =>
    intro it it3 h
    match it with
    | [] => simp [matchLit] at h
    | a :: it =>
      simp only [matchLit] at h
      split at h
      · exact Nat.le_trans (ih h) (Nat.le_succ _)
      · cases h

theorem exactStartLoop_length :
    ∀ (s : List Char) {ch : Option Char} {it ch2 it2}, exactStartLoop s ch it = ExactRes.cont ch2 it2 →
      it2.length ≤ it.length := by
  intro s
  induction s with
  | nil => intro ch it ch2 it2 h; simp only [exactStartLoop] at h; cases h; exact Nat.le_refl _
  | cons c cs ih =>
    intro ch it ch2 it2 h
    match ch with
    | none => simp [exactStartLoop] at h
    | some a =>
      simp only [exactStartLoop] at h
      split at h
      · exact Nat.le_trans (ih h) (List.length_tail _ ▸ Nat.sub_le _ _)
      · cases h

/-- Candidate search of `AnyUntil`/`AnyUntilExactEnd`: with lookahead
character `a` already pulled, either `a` already equals the first literal
character (no search) or the search loop runs. Mirrors lib.rs
lines 311-321 / 353-363. -/
def findCandidate (u : Char) (a : Char) (it : List Char) : Option (List Char) :=
  if a = u then some it else searchChar u it

theorem findCandidate_length {u a : Char} {it it2 : List Char}
    (h : findCandidate u a it = some it2) : it2.length ≤ it.length := by
  unfold findCandidate at h
  split at h
  · cases h; exact Nat.le_refl _
  · exact searchChar_length h

/-- The self-contained loop of the `AnyUntilExactEnd` arm (lib.rs
lines 348-390) for literal `u :: us`, entered with lookahead character `a`
and iterator `it`. Both the mismatch break and the matched-everything break
fall through to `ch = ch_iter.next(); if ch.is_none() { return true }`
(lib.rs lines 381-388) — including after a mismatch, which is the
"too tired" branch the source comments on. -/
def aueeLoop (u : Char) (us : List Char) (a : Char) (it : List Char) : Option Bool :=
  match h1 : findCandidate u a it with
  | none => some false
  | some it2 =>
    match h2 : matchLit us it2 with
    | LitRes.failed => some false
    | LitRes.restart it3 =>
      match it3 with
      | [] => some true
      | b :: it4 => aueeLoop u us b it4
    | LitRes.matched it3 =>
      match it3 with
      | [] => some true
      | b :: it4 => aueeLoop u us b it4
termination_by it.length
decreasing_by
  · have g1 := findCandidate_length h1
    have g2 := matchLit_restart_length us h2
    simp only [List.length_cons] at g2
    omega
  · have g1 := findCandidate_length h1
    have g2 := matchLit_matched_length us h2
    simp only [List.length_cons] at g2
    omega

/-- The outer loop of the `Multipart` arm (lib.rs lines 279-397). `cur` is
the current segment, `segs` the segments after it, `it` the subject
iterator. Each iteration starts by pulling one character (`ch`), checks
`AnyEnd` before the exhaustion check, and dispatches on the segment. -/
def outerLoop (cur : Multipart) (segs : List Multipart) (it : List Char) : Option Bool :=
  match cur, it with
  | Multipart.AnyEnd, _ => some true
  | _, [] => some false
  | Multipart.ExactStart s, a :: it' =>
    (match h1 : exactStartLoop s (some a) it' with
     | ExactRes.panicked => none
     | ExactRes.failed => some false
     | ExactRes.cont _ it2 =>
       -- the pulled lookahead character is discarded: the outer loop calls
       -- `ch_iter.next()` again at the top (lib.rs line 281)
       match segs with
       | [] => some true
       | s2 :: ss => outerLoop s2 ss it2)
  | Multipart.AnyUntil l, a :: it' =>
    (match l with
     | [] => none  -- `ch_un.unwrap()` on an empty literal
     | u :: us =>
       match h2 : findCandidate u a it' with
       | none => some false
       | some it2 =>
         match h3 : matchLit us it2 with
         | LitRes.failed => some false
         | LitRes.restart it3 => outerLoop (Multipart.AnyUntil l) segs it3
         | LitRes.matched it3 =>
           match segs with
           | [] => some true
           | s2 :: ss => outerLoop s2 ss it3)
  | Multipart.AnyUntilExactEnd l, a :: it' =>
    (match l with
     | [] => none  -- `ch_un.unwrap()` on an empty literal
     | u :: us => aueeLoop u us a it')
termination_by it.length
decreasing_by
  · have g1 := exactStartLoop_length s h1
    simp only [List.length_cons]
    omega
  · have g1 := findCandidate_length h2
    have g2 := matchLit_restart_length us h3
    simp only [List.length_cons]
    omega
  · have g1 := findCandidate_length h2
    have g2 := matchLit_matched_length us h3
    simp only [List.length_cons]
    omega

/-- Matcher; mirrors `glob_match_prebuilt` (lib.rs lines 264-401).
A result of `none` models a panic. -/
def glob_match_prebuilt (p : GlobPattern) (value : List Char) : Option Bool :=
  match p with
  | GlobPattern.MatchAny => some true
  | GlobPattern.MatchEnd e => some (e.isSuffixOf value)
  | GlobPattern.MatchStart s => some (s.isPrefixOf value)
  | GlobPattern.MatchBothEnds s e => some (s.isPrefixOf value && e.isSuffixOf value)
  | GlobPattern.MatchFull f => some (value == f)
  | GlobPattern.Multipart multi =>
    match multi with
    | [] => some false
    | m :: ms => outerLoop m ms value

/-! ### Case folding and top-level wrappers -/

/-- ASCII uppercasing of the character sequence, modelling
`str::to_uppercase()` as used by the library (all subjects and patterns of
interest are ASCII, where Rust's uppercasing is the per-character map). -/
def toUpperStr (s : List Char) : List Char := s.map Char.toUpper

/-- Case-insensitive compile-and-match; mirrors `glob_match`
(lib.rs lines 244-248): uppercase the pattern before compiling and the
subject before matching. -/
def glob_match (pat value : List Char) : Except Unit (Option Bool) :=
  (build_glob_pattern (toUpperStr pat)).map fun p => glob_match_prebuilt p (toUpperStr value)

/-- Case-sensitive compile-and-match; mirrors `glob_match_case_sensitive`
(lib.rs lines 250-254). -/
def glob_match_case_sensitive (pat value : List Char) : Except Unit (Option Bool) :=
  (build_glob_pattern pat).map fun p => glob_match_prebuilt p value

/-! ### GlobList

`GlobCaseSensitive` and `GlobIgnoreCase` are newtypes over `GlobPattern`;
the lists store the underlying compiled patterns directly. -/

/-- Mirrors `struct GlobList` (lib.rs lines 53-57). -/
structure GlobList where
  ignore_case_patterns : List GlobPattern
  case_sensitive_patterns : List GlobPattern
deriving DecidableEq, Repr

/-- Mirrors `GlobList::new` (lib.rs lines 60-65). -/
def GlobList.new : GlobList := ⟨[], []⟩

/-- Short-circuiting `Iterator::any` over `glob_match_prebuilt`, with panic
(`none`) propagation: mirrors `.iter().any(|p| glob_match_prebuilt(&p.0, value))`. -/
def anyM : List GlobPattern → List Char → Option Bool
  | [], _ => some false
  | p :: ps, v =>
    match glob_match_prebuilt p v with
    | none => none
    | some true => some true
    | some false => anyM ps v

/-- Short-circuiting `Iterator::all` over `glob_match_prebuilt`, with panic
(`none`) propagation. -/
def allM : List GlobPattern → List Char → Option Bool
  | [], _ => some true
  | p :: ps, v =>
    match glob_match_prebuilt p v with
    | none => none
    | some false => some false
    | some true => allM ps v

/-- Mirrors `GlobList::any_match` (lib.rs lines 102-125): early `false` on a
fully empty list, then the ignore-case bucket on the uppercased subject
(guarded by non-emptiness), then the case-sensitive bucket, joined with `||`.
If the first bucket panics the second is never evaluated. -/
def GlobList.any_match (g : GlobList) (value : List Char) : Option Bool :=
  if g.ignore_case_patterns = [] ∧ g.case_sensitive_patterns = [] then
    some false
  else
    match (if g.ignore_case_patterns ≠ [] then anyM g.ignore_case_patterns (toUpperStr value)
           else some false) with
    | none => none
    | some r1 =>
      match anyM g.case_sensitive_patterns value with
      | none => none
      | some r2 => some (r1 || r2)

/-- Mirrors `GlobList::all_match` (lib.rs lines 127-150). -/
def GlobList.all_match (g : GlobList) (value : List Char) : Option Bool :=
  if g.ignore_case_patterns = [] ∧ g.case_sensitive_patterns = [] then
    some true
  else
    match (if g.ignore_case_patterns ≠ [] then allM g.ignore_case_patterns (toUpperStr value)
           else some true) with
    | none => none
    | some r1 =>
      match allM g.case_sensitive_patterns value with
      | none => none
      | some r2 => some (r1 && r2)

/-- Mirrors `GlobList::combine` (lib.rs lines 159-165): fold starting from
`GlobList::new`, extending both buckets in order. -/
def GlobList.combine (ls : List GlobList) : GlobList :=
  ls.foldl
    (fun acc item =>
      ⟨acc.ignore_case_patterns ++ item.ignore_case_patterns,
       acc.case_sensitive_patterns ++ item.case_sensitive_patterns⟩)
    GlobList.new

/-- Mirrors `GlobList::build` (lib.rs lines 67-76): compile every pattern
case-sensitively, short-circuiting on the first compile error. -/
def GlobList.build (pats : List (List Char)) : Except Unit GlobList :=
  (pats.mapM build_glob_pattern).map fun ps => ⟨[], ps⟩

/-- Mirrors `GlobList::build_ignore_case` (lib.rs lines 78-87). -/
def GlobList.build_ignore_case (pats : List (List Char)) : Except Unit GlobList :=
  (pats.mapM fun p => build_glob_pattern (toUpperStr p)).map fun ps => ⟨ps, []⟩

/-! ### Claim theorems -/

/-- Reduction helper: when the pattern compiles to a non-empty `Multipart`,
`glob_match_case_sensitive` is the outer matcher loop on the subject. -/
theorem glob_match_case_sensitive_multipart (p : List Char) (m : Multipart)
    (ms : List Multipart) (v : List Char)
    (hb : build_glob_pattern p = Except.ok (GlobPattern.Multipart (m :: ms))) :
    glob_match_case_sensitive p v = Except.ok (outerLoop m ms v) := by
  unfold glob_match_case_sensitive
  rw [hb]
  rfl

/-- C1: the claim states that matching is total and in particular that the
ExactStart branch never panics when the subject is shorter than the
ExactStart literal, naming pattern "abc*x*" against subject "ab". The code
violates this: that pattern compiles to
`Multipart [ExactStart "abc", AnyUntil "x", AnyEnd]`, and matching it
against "ab" reaches `ch.unwrap()` with `ch == None` inside the ExactStart
comparison loop (lib.rs line 292), i.e. it panics (modelled as `none`). -/
theorem c1_exactStart_panics_on_short_subject :
    build_glob_pattern "abc*x*".toList =
      Except.ok (GlobPattern.Multipart [Multipart.ExactStart "abc".toList,
        Multipart.AnyUntil ['x'], Multipart.AnyEnd]) ∧
    glob_match_case_sensitive "abc*x*".toList "ab".toList = Except.ok none := by
  refine ⟨rfl, ?_⟩
  rw [glob_match_case_sensitive_multipart "abc*x*".toList (Multipart.ExactStart "abc".toList)
    [Multipart.AnyUntil ['x'], Multipart.AnyEnd] "ab".toList rfl]
  simp [outerLoop, exactStartLoop]

/-- C2: the claim states that a final `AnyUntilExactEnd s` segment never
lets the pattern match a subject that does not end with `s`, naming pattern
"*c*ab" against subject "cax". The code violates this: the mismatch break of
the literal-comparison loop falls through to the same
`ch = ch_iter.next(); if ch.is_none() return true` as a successful match
(lib.rs lines 376-388), so "*c*ab" matches "cax" even though "cax" does not
end with "ab". -/
theorem c2_anyUntilExactEnd_true_without_suffix :
    build_glob_pattern "*c*ab".toList =
      Except.ok (GlobPattern.Multipart [Multipart.AnyUntil ['c'],
        Multipart.AnyUntilExactEnd "ab".toList]) ∧
    glob_match_case_sensitive "*c*ab".toList "cax".toList = Except.ok (some true) ∧
    ("ab".toList).isSuffixOf "cax".toList = false := by
  refine ⟨rfl, ?_, rfl⟩
  rw [glob_match_case_sensitive_multipart "*c*ab".toList (Multipart.AnyUntil ['c'])
    [Multipart.AnyUntilExactEnd "ab".toList] "cax".toList rfl]
  simp [outerLoop, aueeLoop, findCandidate, matchLit, searchChar]

/-- C3 (counterexample): the claim asserts one-character restart granularity
and leftmost-occurrence commitment for `AnyUntil`, and in particular that
pattern "*ab*" matches subject "aab". The code returns false on that pair:
the failed candidate at position 0 consumes the second 'a' and the search
resumes at 'b', missing the occurrence of "ab" at position 1. -/
theorem c3_counterexample :
    build_glob_pattern "*ab*".toList =
      Except.ok (GlobPattern.Multipart [Multipart.AnyUntil "ab".toList, Multipart.AnyEnd]) ∧
    glob_match_case_sensitive "*ab*".toList "aab".toList = Except.ok (some false) := by
  refine ⟨rfl, ?_⟩
  rw [glob_match_case_sensitive_multipart "*ab*".toList (Multipart.AnyUntil "ab".toList)
    [Multipart.AnyEnd] "aab".toList rfl]
  simp [outerLoop, findCandidate, matchLit, searchChar]

theorem matchLit_restart_suffix :
    ∀ (us : List Char) {it it3 : List Char}, matchLit us it = LitRes.restart it3 →
      it3 <:+ it := by
  intro us
  induction us with
  | nil => intro it it3 h; simp [matchLit] at h
  | cons c cs ih =>
    intro it it3 h
    match it with
    | [] => simp [matchLit] at h
    | a :: it =>
      simp only [matchLit] at h
      split at h
      · exact (ih h).trans (List.suffix_cons a it)
      · cases h; exact List.suffix_cons _ _

/-- C3 (amended): the `AnyUntil` search does not rewind the subject iterator
after a failed candidate comparison: scanning resumes at the character after
the last character consumed by the failed attempt (a strict suffix of the
iterator state at the mismatch), not one character past the candidate's
start, so occurrences overlapping a failed candidate can be missed ("*ab*"
does not match "aab"). Subjects whose literal occurrences do not overlap
failed candidates still match; in particular "*val*brawl*" matches
"xvalxbrawlxxxx". -/
theorem c3_amended_no_rewind :
    glob_match_case_sensitive "*val*brawl*".toList "xvalxbrawlxxxx".toList =
      Except.ok (some true) ∧
    (∀ (us it it3 : List Char), matchLit us it = LitRes.restart it3 →
      it3 <:+ it ∧ it3.length < it.length) := by
  constructor
  · rw [glob_match_case_sensitive_multipart "*val*brawl*".toList
      (Multipart.AnyUntil "val".toList) [Multipart.AnyUntil "brawl".toList, Multipart.AnyEnd]
      "xvalxbrawlxxxx".toList rfl]
    simp [outerLoop, findCandidate, matchLit, searchChar]
  · intro us it it3 h
    exact ⟨matchLit_restart_suffix us h, matchLit_restart_length us h⟩

/-- Witness for the hypothesis of the second part of the C3 amended theorem,
at the concrete mismatch `matchLit "b" "ab" = restart "b"`. -/
theorem c3_amended_no_rewind_witness :
    ['b'] <:+ ['a', 'b'] ∧ (['b'] : List Char).length < (['a', 'b'] : List Char).length :=
  c3_amended_no_rewind.2 ['b'] ['a', 'b'] ['b'] rfl

/-- C4 (counterexample): the claim asserts that a rejected
`AnyUntilExactEnd` candidate resumes the search just past the candidate's
starting position (overlapping occurrences considered), and in particular
that "*b*aa" matches "baaa". The code returns false on that pair: after the
candidate "aa" at positions 1-2 is rejected (subject not exhausted), the
search resumes at position 3, skipping the occurrence ending at the end of
the subject that starts at position 2. -/
theorem c4_counterexample :
    build_glob_pattern "*b*aa".toList =
      Except.ok (GlobPattern.Multipart [Multipart.AnyUntil ['b'],
        Multipart.AnyUntilExactEnd "aa".toList]) ∧
    glob_match_case_sensitive "*b*aa".toList "baaa".toList = Except.ok (some false) := by
  refine ⟨rfl, ?_⟩
  rw [glob_match_case_sensitive_multipart "*b*aa".toList (Multipart.AnyUntil ['b'])
    [Multipart.AnyUntilExactEnd "aa".toList] "baaa".toList rfl]
  simp [outerLoop, aueeLoop, findCandidate, matchLit, searchChar]

/-- C4 (amended): after a fully matched but rejected `AnyUntilExactEnd`
candidate, the search resumes at the position immediately after the
character consumed by the end-of-subject check — one past the candidate's
end, not one past its start — so overlapping later starting positions are
skipped. "*b*aa" therefore fails on "baaa" but matches "baxaa" (a disjoint
later occurrence) and "baaaa" (the skipped restart lands on an occurrence). -/
theorem c4_amended_restart_past_candidate :
    glob_match_case_sensitive "*b*aa".toList "baxaa".toList = Except.ok (some true) ∧
    glob_match_case_sensitive "*b*aa".toList "baaaa".toList = Except.ok (some true) := by
  constructor
  · rw [glob_match_case_sensitive_multipart "*b*aa".toList (Multipart.AnyUntil ['b'])
      [Multipart.AnyUntilExactEnd "aa".toList] "baxaa".toList rfl]
    simp [outerLoop, aueeLoop, findCandidate, matchLit, searchChar]
  · rw [glob_match_case_sensitive_multipart "*b*aa".toList (Multipart.AnyUntil ['b'])
      [Multipart.AnyUntilExactEnd "aa".toList] "baaaa".toList rfl]
    simp [outerLoop, aueeLoop, findCandidate, matchLit, searchChar]

/-- C8: on the fully empty `GlobList`, `any_match` returns false and
`all_match` returns true, for every subject. -/
theorem c8_empty_globlist (v : List Char) :
    GlobList.any_match ⟨[], []⟩ v = some false ∧
    GlobList.all_match ⟨[], []⟩ v = some true :=
  ⟨rfl, rfl⟩

/-- C9: case-insensitive matching uppercases the pattern at compile time and
the subject at match time and then delegates to the case-sensitive
compiler and matcher; on the spec's example, the case-insensitive call
returns true and the case-sensitive call returns false. -/
theorem c9_case_folding :
    (∀ pat value : List Char,
      glob_match pat value = glob_match_case_sensitive (toUpperStr pat) (toUpperStr value)) ∧
    glob_match "*.Test.cs".toList "startling.magic.TEST.CS".toList = Except.ok (some true) ∧
    glob_match_case_sensitive "*.Test.cs".toList "startling.magic.TEST.CS".toList =
      Except.ok (some false) :=
  ⟨fun _ _ => rfl, rfl, rfl⟩

/-! ### C6: the single-interior-wildcard form -/

theorem takeUntilStar_append (s e : List Char) (hs : '*' ∉ s) :
    takeUntilStar (s ++ '*' :: e) = s := by
  induction s with
  | nil => simp [takeUntilStar]
  | cons x s ih =>
    have hx : x ≠ '*' := fun h => hs (h ▸ List.mem_cons_self x s)
    show (if x = '*' then [] else x :: takeUntilStar (s ++ '*' :: e)) = x :: s
    rw [if_neg hx, ih (fun h => hs (List.mem_cons_of_mem x h))]

theorem dropPastStar_append (s e : List Char) (hs : '*' ∉ s) :
    dropPastStar (s ++ '*' :: e) = e := by
  induction s with
  | nil => simp [dropPastStar]
  | cons x s ih =>
    have hx : x ≠ '*' := fun h => hs (h ▸ List.mem_cons_self x s)
    show (if x = '*' then s ++ '*' :: e else dropPastStar (s ++ '*' :: e)) = e
    rw [if_neg hx]
    exact ih (fun h => hs (List.mem_cons_of_mem x h))

theorem build_both_ends (s e : List Char) (hs : '*' ∉ s) (he : '*' ∉ e)
    (hs0 : s ≠ []) (he0 : e ≠ []) :
    build_glob_pattern (s ++ '*' :: e) = Except.ok (GlobPattern.MatchBothEnds s e) := by
  obtain ⟨x, s', rfl⟩ := List.exists_cons_of_ne_nil hs0
  have hx : x ≠ '*' := fun h => hs (h ▸ List.mem_cons_self x s')
  have hxs' : '*' ∉ s' := fun h => hs (List.mem_cons_of_mem x h)
  have hcount : ((x :: s') ++ '*' :: e).count '*' = 1 := by
    rw [List.count_append, List.count_cons_self,
      List.count_eq_zero.mpr hs, List.count_eq_zero.mpr he]
  have hne : (x :: s') ++ '*' :: e ≠ ['*'] := by
    intro h
    have := congrArg List.length h
    simp [List.length_append] at this
  have hany : ((x :: s') ++ '*' :: e).any (fun ch => ch == '*') = true := by
    refine List.any_eq_true.mpr ⟨'*', ?_, by simp⟩
    exact List.mem_append_right _ (List.mem_cons_self _ _)
  have hlast : ((x :: s') ++ '*' :: e).getLast? ≠ some '*' := by
    rw [List.getLast?_append]
    have h1 : ('*' :: e).getLast? = e.getLast? := by
      obtain ⟨y, e', rfl⟩ := List.exists_cons_of_ne_nil he0
      simp [List.getLast?]
    rw [h1, List.getLast?_eq_getLast_of_ne_nil he0]
    intro hcontra
    rw [show (some (e.getLast he0)).or ((x :: s').getLast?) = some (e.getLast he0) from rfl] at hcontra
    simp only [Option.some.injEq] at hcontra
    exact he (hcontra ▸ List.getLast_mem he0)
  unfold build_glob_pattern
  rw [if_neg hne, hany, if_neg (by simp), if_pos hcount]
  split
  · rename_i heq
    rw [List.cons_append] at heq
    exact absurd (List.cons.inj heq).1 hx
  · rw [if_neg hlast, takeUntilStar_append _ _ hs, dropPastStar_append _ _ hs]

/-- C6 (counterexample): the claim requires that a `MatchBothEnds` pattern
matches only subjects at least as long as prefix and suffix combined (the
matched prefix and suffix may not overlap), naming pattern "ab*ba" against
subject "aba" as a non-match. The code checks `starts_with` and `ends_with`
independently with no length comparison, so "ab*ba" does match "aba". -/
theorem c6_counterexample :
    build_glob_pattern "ab*ba".toList =
      Except.ok (GlobPattern.MatchBothEnds "ab".toList "ba".toList) ∧
    glob_match_case_sensitive "ab*ba".toList "aba".toList = Except.ok (some true) ∧
    ("aba".toList).length < ("ab".toList).length + ("ba".toList).length :=
  ⟨rfl, rfl, by decide⟩

/-- C6 (amended): a pattern of the shape prefix-star-suffix with exactly one
interior wildcard compiles to `MatchBothEnds`, and matching returns true if
and only if the subject starts with the prefix and ends with the suffix;
the two checks are independent, so the matched prefix and suffix may overlap
(no minimum-length requirement). -/
theorem c6_amended_both_ends (s e v : List Char) (hs : '*' ∉ s) (he : '*' ∉ e)
    (hs0 : s ≠ []) (he0 : e ≠ []) :
    build_glob_pattern (s ++ '*' :: e) = Except.ok (GlobPattern.MatchBothEnds s e) ∧
    (glob_match_case_sensitive (s ++ '*' :: e) v = Except.ok (some true) ↔
      s <+: v ∧ e <:+ v) := by
  have hb := build_both_ends s e hs he hs0 he0
  refine ⟨hb, ?_⟩
  unfold glob_match_case_sensitive
  rw [hb]
  simp [glob_match_prebuilt, Except.map, List.isPrefixOf_iff_prefix,
    List.isSuffixOf_iff_suffix]

/-- Witness for the C6 amended theorem at prefix "ab", suffix "ba",
subject "abba". -/
theorem c6_amended_both_ends_witness :
    build_glob_pattern ("ab".toList ++ '*' :: "ba".toList) =
      Except.ok (GlobPattern.MatchBothEnds "ab".toList "ba".toList) ∧
    (glob_match_case_sensitive ("ab".toList ++ '*' :: "ba".toList) "abba".toList =
        Except.ok (some true) ↔
      "ab".toList <+: "abba".toList ∧ "ba".toList <:+ "abba".toList) :=
  c6_amended_both_ends "ab".toList "ba".toList "abba".toList
    (by decide) (by decide) (by decide) (by decide)

/-! ### C7: structural invariants of built Multipart sequences -/

/-- Segment kinds that may only close a `Multipart` sequence. -/
def isEnder : Multipart → Bool
  | Multipart.AnyEnd => true
  | Multipart.AnyUntilExactEnd _ => true
  | _ => false

theorem buildRestAux_struct (r : List Char) :
    ∀ acc, ∃ mids en, buildRestAux acc r = mids ++ [en] ∧
      (∀ m ∈ mids, ∃ s, m = Multipart.AnyUntil s) ∧ isEnder en = true := by
  induction r with
  | nil =>
    intro acc
    exact ⟨[], Multipart.AnyUntilExactEnd acc.reverse, rfl, by simp, rfl⟩
  | cons x xs ih =>
    intro acc
    show ∃ mids en,
      (if x = '*' then
        Multipart.AnyUntil acc.reverse ::
          (match xs with
            | [] => [Multipart.AnyEnd]
            | _ :: _ => buildRestAux [] xs)
        else buildRestAux (x :: acc) xs) = mids ++ [en] ∧
      (∀ m ∈ mids, ∃ s, m = Multipart.AnyUntil s) ∧ isEnder en = true
    by_cases hx : x = '*'
    · rw [if_pos hx]
      match xs with
      | [] =>
        refine ⟨[Multipart.AnyUntil acc.reverse], Multipart.AnyEnd, rfl, ?_, rfl⟩
        intro m hm
        rw [List.mem_singleton] at hm
        exact ⟨acc.reverse, hm⟩
      | y :: ys =>
        obtain ⟨mids, en, heq, hmid, hend⟩ := ih []
        refine ⟨Multipart.AnyUntil acc.reverse :: mids, en, ?_, ?_, hend⟩
        · rw [List.cons_append]
          exact congrArg _ heq
        · intro m hm
          rcases List.mem_cons.mp hm with h | h
          · exact ⟨acc.reverse, h⟩
          · exact hmid m h
    · rw [if_neg hx]
      exact ih (x :: acc)

theorem buildRest_struct (r : List Char) :
    ∃ mids en, buildRest r = mids ++ [en] ∧
      (∀ m ∈ mids, ∃ s, m = Multipart.AnyUntil s) ∧ isEnder en = true := by
  match r with
  | [] => exact ⟨[], Multipart.AnyEnd, rfl, by simp, rfl⟩
  | x :: xs => exact buildRestAux_struct (x :: xs) []

theorem multipart_invariants_core (first : Multipart) (r : List Char)
    (hfirst : isEnder first = false)
    (hval : ∀ s, Multipart.AnyUntil s ∈ first :: buildRest r → s ≠ []) :
    (first :: buildRest r) ≠ [] ∧
    (∃ en, (first :: buildRest r).getLast? = some en ∧ isEnder en = true) ∧
    (∀ m ∈ (first :: buildRest r).dropLast, isEnder m = false) ∧
    (∀ m ∈ (first :: buildRest r).tail, ∀ s, m ≠ Multipart.ExactStart s) ∧
    (∀ s, Multipart.AnyUntil s ∈ (first :: buildRest r) → s ≠ []) := by
  obtain ⟨mids, en, heq, hmid, hend⟩ := buildRest_struct r
  rw [heq] at hval ⊢
  rw [show first :: (mids ++ [en]) = (first :: mids) ++ [en] from rfl] at hval ⊢
  refine ⟨by simp, ⟨en, List.getLast?_concat _, hend⟩, ?_, ?_, hval⟩
  · rw [List.dropLast_concat]
    intro m hm
    rcases List.mem_cons.mp hm with hfm | hmm
    · exact hfm ▸ hfirst
    · obtain ⟨s, rfl⟩ := hmid m hmm
      rfl
  · rw [show ((first :: mids) ++ [en]).tail = mids ++ [en] from rfl]
    intro m hm s
    rcases List.mem_append.mp hm with hmm | hme
    · obtain ⟨t, rfl⟩ := hmid m hmm
      simp
    · rw [List.mem_singleton] at hme
      subst hme
      intro hcontra
      rw [hcontra] at hend
      simp [isEnder] at hend

theorem finishMultipart_ok (first : Multipart) (r : List Char) (parts : List Multipart)
    (h : finishMultipart first r = Except.ok (GlobPattern.Multipart parts)) :
    (r = [] ∧ parts = [first, Multipart.AnyEnd]) ∨
    (r ≠ [] ∧ parts = first :: buildRest r ∧
      ∀ s, Multipart.AnyUntil s ∈ parts → s ≠ []) := by
  unfold finishMultipart at h
  by_cases hr : r = []
  · rw [if_pos hr] at h
    rw [Except.ok.injEq, GlobPattern.Multipart.injEq] at h
    exact Or.inl ⟨hr, h.symm⟩
  · rw [if_neg hr] at h
    dsimp only at h
    split at h
    · simp at h
    · rename_i hvalfalse
      rw [Except.ok.injEq, GlobPattern.Multipart.injEq] at h
      subst h
      refine Or.inr ⟨hr, rfl, ?_⟩
      intro s hmem hnil
      subst hnil
      exact hvalfalse (List.any_eq_true.mpr ⟨_, hmem, rfl⟩)

/-- C7 (counterexample): the claim requires every `AnyUntil` literal of a
built `Multipart` to be non-empty, but the pattern of exactly two wildcards
compiles — through the validation-skipping early return at lib.rs
lines 213-216 — to `Multipart [AnyUntil [], AnyEnd]`, which contains an
empty `AnyUntil` literal. -/
theorem c7_counterexample :
    build_glob_pattern "**".toList =
      Except.ok (GlobPattern.Multipart [Multipart.AnyUntil [], Multipart.AnyEnd]) ∧
    Multipart.AnyUntil [] ∈ [Multipart.AnyUntil ([] : List Char), Multipart.AnyEnd] :=
  ⟨rfl, List.mem_cons_self _ _⟩

/-- C7 (amended): every `Multipart` value produced by `build_glob_pattern`
satisfies: the segment list is non-empty; its last segment is `AnyEnd` or
`AnyUntilExactEnd` and no earlier segment is; `ExactStart` never occurs
after the first position; and — for every pattern other than the
two-wildcard pattern, whose early return skips validation — every
`AnyUntil` literal is non-empty. -/
theorem c7_amended_multipart_invariants (p : List Char) (parts : List Multipart)
    (h : build_glob_pattern p = Except.ok (GlobPattern.Multipart parts)) :
    parts ≠ [] ∧
    (∃ en, parts.getLast? = some en ∧ isEnder en = true) ∧
    (∀ m ∈ parts.dropLast, isEnder m = false) ∧
    (∀ m ∈ parts.tail, ∀ s, m ≠ Multipart.ExactStart s) ∧
    (p ≠ ['*', '*'] → ∀ s, Multipart.AnyUntil s ∈ parts → s ≠ []) := by
  unfold build_glob_pattern at h
  split at h
  · simp at h
  · split at h
    · simp at h
    · split at h
      · -- single-wildcard branch: never a Multipart
        split at h
        · simp at h
        · split at h <;> simp at h
      · -- multi-wildcard branch: split the inner match on the pattern shape;
        -- both arms finish through finishMultipart
        rename_i hne1 hany hcount
        split at h
        · rename_i rest
          rcases finishMultipart_ok _ _ _ h with ⟨hr, hparts⟩ | ⟨hr, hparts, hau⟩
          · subst hparts
            have hc1 : 0 < (('*' :: rest).count '*') :=
              List.count_pos_iff.mpr (List.mem_cons_self _ _)
            have hc2 : 2 ≤ ('*' :: rest).count '*' := by omega
            have hrest_star : '*' ∈ rest := by
              rw [List.count_cons_self] at hc2
              exact List.count_pos_iff.mp (by omega)
            have hrest_ne : rest ≠ [] := fun hh => by subst hh; simp at hrest_star
            refine ⟨by simp, ⟨Multipart.AnyEnd, rfl, rfl⟩, ?_, ?_, ?_⟩
            · intro m hm
              rw [show ([Multipart.AnyUntil (takeUntilStar rest),
                  Multipart.AnyEnd]).dropLast = [Multipart.AnyUntil (takeUntilStar rest)]
                from rfl, List.mem_singleton] at hm
              subst hm
              rfl
            · intro m hm s
              rw [show ([Multipart.AnyUntil (takeUntilStar rest),
                  Multipart.AnyEnd]).tail = [Multipart.AnyEnd] from rfl,
                List.mem_singleton] at hm
              subst hm
              simp
            · intro hpne s hmem hnil
              subst hnil
              obtain ⟨r0, rs, rfl⟩ := List.exists_cons_of_ne_nil hrest_ne
              rcases List.mem_cons.mp hmem with h1 | h1
              · have ht : takeUntilStar (r0 :: rs) = [] :=
                  ((Multipart.AnyUntil.injEq _ _).mp h1).symm
                by_cases hx : r0 = '*'
                · subst hx
                  have hrs : rs = [] := by simpa [dropPastStar] using hr
                  subst hrs
                  exact hpne rfl
                · rw [show takeUntilStar (r0 :: rs) = r0 :: takeUntilStar rs
                    from by simp [takeUntilStar, hx]] at ht
                  cases ht
              · rw [List.mem_singleton] at h1
                cases h1
          · subst hparts
            obtain ⟨k1, k2, k3, k4, k5⟩ := multipart_invariants_core
              (Multipart.AnyUntil (takeUntilStar rest)) (dropPastStar rest) rfl hau
            exact ⟨k1, k2, k3, k4, fun _ => k5⟩
        · rcases finishMultipart_ok _ _ _ h with ⟨hr, hparts⟩ | ⟨hr, hparts, hau⟩
          · subst hparts
            refine ⟨by simp, ⟨Multipart.AnyEnd, rfl, rfl⟩, ?_, ?_, ?_⟩
            · intro m hm
              rw [show ([Multipart.ExactStart (takeUntilStar p),
                  Multipart.AnyEnd]).dropLast = [Multipart.ExactStart (takeUntilStar p)]
                from rfl, List.mem_singleton] at hm
              subst hm
              rfl
            · intro m hm s
              rw [show ([Multipart.ExactStart (takeUntilStar p),
                  Multipart.AnyEnd]).tail = [Multipart.AnyEnd] from rfl,
                List.mem_singleton] at hm
              subst hm
              simp
            · intro hpne s hmem
              rcases List.mem_cons.mp hmem with h1 | h1
              · cases h1
              · rw [List.mem_singleton] at h1
                cases h1
          · subst hparts
            obtain ⟨k1, k2, k3, k4, k5⟩ := multipart_invariants_core
              (Multipart.ExactStart (takeUntilStar p)) (dropPastStar p) rfl hau
            exact ⟨k1, k2, k3, k4, fun _ => k5⟩

/-- Witness for the C7 amended theorem at the concrete pattern "a*b*c". -/
theorem c7_amended_multipart_invariants_witness :
    ([Multipart.ExactStart ['a'], Multipart.AnyUntil ['b'],
        Multipart.AnyUntilExactEnd ['c']] : List Multipart) ≠ [] ∧
    (∃ en, ([Multipart.ExactStart ['a'], Multipart.AnyUntil ['b'],
        Multipart.AnyUntilExactEnd ['c']] : List Multipart).getLast? = some en ∧
      isEnder en = true) ∧
    (∀ m ∈ ([Multipart.ExactStart ['a'], Multipart.AnyUntil ['b'],
        Multipart.AnyUntilExactEnd ['c']] : List Multipart).dropLast, isEnder m = false) ∧
    (∀ m ∈ ([Multipart.ExactStart ['a'], Multipart.AnyUntil ['b'],
        Multipart.AnyUntilExactEnd ['c']] : List Multipart).tail,
      ∀ s, m ≠ Multipart.ExactStart s) ∧
    ("a*b*c".toList ≠ ['*', '*'] →
      ∀ s, Multipart.AnyUntil s ∈ ([Multipart.ExactStart ['a'], Multipart.AnyUntil ['b'],
        Multipart.AnyUntilExactEnd ['c']] : List Multipart) → s ≠ []) :=
  c7_amended_multipart_invariants "a*b*c".toList
    [Multipart.ExactStart ['a'], Multipart.AnyUntil ['b'], Multipart.AnyUntilExactEnd ['c']] rfl

/-! ### C5: compile error exactly on adjacent wildcards -/

theorem takeUntilStar_eq_nil (r : List Char) (hr : r ≠ []) :
    takeUntilStar r = [] ↔ r.head? = some '*' := by
  match r with
  | x :: xs =>
    show (if x = '*' then [] else x :: takeUntilStar xs) = [] ↔ _
    by_cases hx : x = '*'
    · simp [hx]
    · simp [hx]

theorem star_star_prefix_iff (x : Char) (xs : List Char) :
    ['*', '*'] <+: (x :: xs) ↔ x = '*' ∧ xs.head? = some '*' := by
  rw [List.cons_prefix_cons]
  constructor
  · rintro ⟨h1, h2⟩
    refine ⟨h1.symm, ?_⟩
    cases xs with
    | nil => exact absurd h2.length_le (by simp)
    | cons y ys =>
      rw [List.cons_prefix_cons] at h2
      simp [h2.1.symm]
  · rintro ⟨h1, h2⟩
    subst h1
    cases xs with
    | nil => simp at h2
    | cons y ys =>
      simp only [List.head?_cons, Option.some.injEq] at h2
      subst h2
      exact ⟨rfl, List.cons_prefix_cons.mpr ⟨rfl, List.nil_prefix⟩⟩

theorem star_star_infix_cons (x : Char) (xs : List Char) :
    ['*', '*'] <:+: (x :: xs) ↔ (x = '*' ∧ xs.head? = some '*') ∨ ['*', '*'] <:+: xs := by
  rw [List.infix_cons_iff, star_star_prefix_iff]

theorem star_star_infix_split :
    ∀ (p : List Char), '*' ∈ p →
      (['*', '*'] <:+: p ↔
        ((dropPastStar p).head? = some '*' ∨ ['*', '*'] <:+: dropPastStar p)) := by
  intro p
  induction p with
  | nil => intro h; simp at h
  | cons x xs ih =>
    intro hmem
    rw [star_star_infix_cons]
    by_cases hx : x = '*'
    · subst hx
      have hd : dropPastStar ('*' :: xs) = xs := by simp [dropPastStar]
      rw [hd]
      simp
    · have hxs : '*' ∈ xs := by
        rcases List.mem_cons.mp hmem with h | h
        · exact absurd h.symm hx
        · exact h
      have hd : dropPastStar (x :: xs) = dropPastStar xs := by simp [dropPastStar, hx]
      rw [hd, ih hxs]
      simp [hx]

theorem buildRestAux_cons (acc : List Char) (x : Char) (xs : List Char) :
    buildRestAux acc (x :: xs) =
      if x = '*' then
        Multipart.AnyUntil acc.reverse ::
          (match xs with
            | [] => [Multipart.AnyEnd]
            | _ :: _ => buildRestAux [] xs)
      else buildRestAux (x :: acc) xs := rfl

theorem emptyAU_buildRestAux :
    ∀ (r acc : List Char),
      (Multipart.AnyUntil [] ∈ buildRestAux acc r) ↔
        ((acc = [] ∧ r.head? = some '*') ∨ ['*', '*'] <:+: r) := by
  intro r
  induction r with
  | nil =>
    intro acc
    show Multipart.AnyUntil [] ∈ [Multipart.AnyUntilExactEnd acc.reverse] ↔ _
    simp
  | cons x xs ih =>
    intro acc
    rw [buildRestAux_cons]
    have hrev : (Multipart.AnyUntil ([] : List Char) = Multipart.AnyUntil acc.reverse) ↔
        acc = [] := by
      rw [Multipart.AnyUntil.injEq]
      constructor
      · intro h
        exact List.reverse_eq_nil_iff.mp h.symm
      · intro h
        subst h
        rfl
    by_cases hx : x = '*'
    · subst hx
      rw [if_pos rfl]
      cases xs with
      | nil =>
        have h1 : ¬ (['*', '*'] <:+: ['*']) := by decide
        dsimp only
        rw [List.mem_cons, hrev]
        simp [h1]
      | cons y ys =>
        dsimp only
        rw [List.mem_cons, hrev, ih [], star_star_infix_cons '*' (y :: ys)]
        simp only [eq_self_iff_true, true_and, and_true, List.head?_cons, Option.some.injEq]
        try tauto
    · rw [if_neg hx, ih (x :: acc), star_star_infix_cons x xs]
      simp [hx]

theorem emptyAU_buildRest (r : List Char) :
    Multipart.AnyUntil [] ∈ buildRest r ↔
      (r.head? = some '*' ∨ ['*', '*'] <:+: r) := by
  match r with
  | [] => simp [buildRest]
  | x :: xs =>
    show Multipart.AnyUntil [] ∈ buildRestAux [] (x :: xs) ↔ _
    rw [emptyAU_buildRestAux]
    simp

theorem validation_any (parts : List Multipart) :
    (parts.any (fun m => match m with | Multipart.AnyUntil s => s.isEmpty | _ => false) = true) ↔
      Multipart.AnyUntil [] ∈ parts := by
  rw [List.any_eq_true]
  constructor
  · rintro ⟨m, hm, he⟩
    match m, he with
    | Multipart.AnyUntil s, he =>
      rw [List.isEmpty_iff] at he
      subst he
      exact hm
  · intro hm
    exact ⟨_, hm, rfl⟩


theorem dropPastStar_ne_nil (p : List Char) (h : 2 ≤ p.count '*') :
    dropPastStar p ≠ [] := by
  induction p with
  | nil => simp [List.count_nil] at h
  | cons x xs ih =>
    show (if x = '*' then xs else dropPastStar xs) ≠ []
    by_cases hx : x = '*'
    · rw [if_pos hx]
      intro hnil
      subst hnil
      subst hx
      rw [List.count_cons_self, List.count_nil] at h
      omega
    · rw [if_neg hx]
      refine ih ?_
      rwa [List.count_cons_of_ne (fun hh => hx hh.symm)] at h

theorem finishMultipart_error_iff (first : Multipart) (r : List Char) :
    finishMultipart first r = Except.error () ↔
      (r ≠ [] ∧ Multipart.AnyUntil [] ∈ first :: buildRest r) := by
  unfold finishMultipart
  by_cases hr : r = []
  · rw [if_pos hr]
    exact iff_of_false (by simp) (fun hh => hh.1 hr)
  · rw [if_neg hr]
    dsimp only
    split
    · rename_i hval
      exact iff_of_true rfl ⟨hr, (validation_any _).mp hval⟩
    · rename_i hval
      exact iff_of_false (by simp) (fun hh => hval ((validation_any _).mpr hh.2))

/-- C5 (counterexample): the claim says compilation errors exactly on a
pattern with two adjacent wildcards, but the two-wildcard pattern itself —
which consists of nothing but an adjacent pair — compiles successfully: its
`pos == end` early return (lib.rs lines 213-216) skips the validation pass,
yielding `Multipart [AnyUntil [], AnyEnd]`. -/
theorem c5_counterexample :
    build_glob_pattern "**".toList =
      Except.ok (GlobPattern.Multipart [Multipart.AnyUntil [], Multipart.AnyEnd]) ∧
    ['*', '*'] <:+: "**".toList :=
  ⟨rfl, by decide⟩

/-- C5 (amended): `build_glob_pattern` returns an error exactly when the
pattern contains two adjacent wildcard characters and is not the
two-character pattern of exactly two wildcards; that one pattern escapes the
validation pass through the early return and compiles, and every pattern
without adjacent wildcards (including the empty one) compiles. -/
theorem c5_amended_error_iff_adjacent (p : List Char) :
    build_glob_pattern p = Except.error () ↔
      (['*', '*'] <:+: p ∧ p ≠ ['*', '*']) := by
  have hinfix_count : ['*', '*'] <:+: p → 2 ≤ p.count '*' := by
    intro hc
    have := hc.sublist.count_le '*'
    simpa using this
  unfold build_glob_pattern
  split
  · rename_i hp
    subst hp
    exact iff_of_false (by simp) (fun hc => absurd hc.1 (by decide))
  · split
    · rename_i hne1 hno
      refine iff_of_false (by simp) ?_
      rintro ⟨hc, -⟩
      refine hno ?_
      have hmem : '*' ∈ p := by
        apply List.Sublist.subset hc.sublist
        decide
      exact List.any_eq_true.mpr ⟨'*', hmem, by simp⟩
    · split
      · rename_i hne1 hany hcount
        have hfalse : ¬ (['*', '*'] <:+: p) := by
          intro hc
          have := hinfix_count hc
          omega
        split
        · exact iff_of_false (by simp) (fun hc => hfalse hc.1)
        · split
          · exact iff_of_false (by simp) (fun hc => hfalse hc.1)
          · exact iff_of_false (by simp) (fun hc => hfalse hc.1)
      · rename_i hne1 hany hcount
        have hany' : p.any (fun ch => ch == '*') = true := not_not.mp hany
        have hstar : '*' ∈ p := by
          obtain ⟨x, hx, he⟩ := List.any_eq_true.mp hany'
          have hxe : x = '*' := by simpa using he
          subst hxe
          exact hx
        have hcount2 : 2 ≤ p.count '*' := by
          have h1 : 0 < p.count '*' := List.count_pos_iff.mpr hstar
          omega
        split
        · rename_i rest
          have hrest_star : '*' ∈ rest := by
            rw [List.count_cons_self] at hcount2
            exact List.count_pos_iff.mp (by omega)
          have hrest_ne : rest ≠ [] := fun hh => by subst hh; simp at hrest_star
          rw [finishMultipart_error_iff]
          by_cases hre : rest = ['*']
          · subst hre
            exact iff_of_false (fun hh => hh.1 rfl) (fun hh => hh.2 rfl)
          · have hpne : ('*' :: rest) ≠ ['*', '*'] := fun hh => hre (List.cons.inj hh).2
            by_cases hr : dropPastStar rest = []
            · refine iff_of_false (fun hh => hh.1 hr) ?_
              rintro ⟨hinf, -⟩
              rw [star_star_infix_cons '*' rest,
                star_star_infix_split rest hrest_star, hr] at hinf
              simp at hinf
              obtain ⟨r0, rs, rfl⟩ := List.exists_cons_of_ne_nil hrest_ne
              rw [List.head?_cons, Option.some.injEq] at hinf
              subst hinf
              have hrs : rs = [] := by simpa [dropPastStar] using hr
              subst hrs
              exact hre rfl
            · have htake : (Multipart.AnyUntil ([] : List Char) =
                  Multipart.AnyUntil (takeUntilStar rest)) ↔ rest.head? = some '*' := by
                rw [Multipart.AnyUntil.injEq, eq_comm, takeUntilStar_eq_nil rest hrest_ne]
              have key : (Multipart.AnyUntil [] ∈ Multipart.AnyUntil (takeUntilStar rest) ::
                    buildRest (dropPastStar rest)) ↔
                  ['*', '*'] <:+: ('*' :: rest) := by
                rw [List.mem_cons, htake, emptyAU_buildRest, star_star_infix_cons '*' rest,
                  star_star_infix_split rest hrest_star]
                simp only [eq_self_iff_true, true_and]
              constructor
              · rintro ⟨-, hmem⟩
                exact ⟨key.mp hmem, hpne⟩
              · rintro ⟨hinf, -⟩
                exact ⟨hr, key.mpr hinf⟩
        · rename_i hnotstar
          have hr : dropPastStar p ≠ [] := dropPastStar_ne_nil p hcount2
          have hpne : p ≠ ['*', '*'] := fun hh => hnotstar ['*'] hh
          rw [finishMultipart_error_iff]
          have key : (Multipart.AnyUntil [] ∈ Multipart.ExactStart (takeUntilStar p) ::
                buildRest (dropPastStar p)) ↔ ['*', '*'] <:+: p := by
            rw [List.mem_cons, emptyAU_buildRest, star_star_infix_split p hstar]
            simp
          constructor
          · rintro ⟨-, hmem⟩
            exact ⟨key.mp hmem, hpne⟩
          · rintro ⟨hinf, -⟩
            exact ⟨hr, key.mpr hinf⟩

/-! ### C10: combine is a homomorphism for any_match (up to panics) -/

/-- Sequencing of the two bucket results in `any_match`: a panic in the
first bucket short-circuits, otherwise a panic in the second does, otherwise
the booleans are joined with `||`. -/
def seqOr : Option Bool → Option Bool → Option Bool
  | none, _ => none
  | some _, none => none
  | some b1, some b2 => some (b1 || b2)

theorem seqOr_none_right (x : Option Bool) : seqOr x none = none := by
  cases x <;> rfl

theorem anyM_cons (p : GlobPattern) (ps : List GlobPattern) (v : List Char) :
    anyM (p :: ps) v =
      match glob_match_prebuilt p v with
      | none => none
      | some true => some true
      | some false => anyM ps v := rfl

theorem any_match_eq (g : GlobList) (v : List Char) :
    g.any_match v =
      seqOr (anyM g.ignore_case_patterns (toUpperStr v))
        (anyM g.case_sensitive_patterns v) := by
  obtain ⟨ic, cs⟩ := g
  unfold GlobList.any_match
  by_cases h0 : ic = [] ∧ cs = []
  · obtain ⟨h1, h2⟩ := h0
    subst h1
    subst h2
    rfl
  · rw [if_neg h0]
    by_cases hic : ic = []
    · subst hic
      rw [if_neg (by simp)]
      rcases hcs2 : anyM cs v with _ | b2 <;> simp [seqOr, anyM, hcs2]
    · rw [if_pos hic]
      rcases hic2 : anyM ic (toUpperStr v) with _ | b1 <;>
        rcases hcs2 : anyM cs v with _ | b2 <;> simp [seqOr, hic2, hcs2]

theorem anyM_append_none (a b : List GlobPattern) (v : List Char)
    (h : anyM a v = none) : anyM (a ++ b) v = none := by
  induction a with
  | nil => simp [anyM] at h
  | cons p ps ih =>
    rw [anyM_cons] at h
    rw [List.cons_append, anyM_cons]
    rcases hg : glob_match_prebuilt p v with _ | bb
    · rfl
    · rw [hg] at h
      cases bb
      · simp only at h ⊢
        exact ih h
      · simp at h

theorem anyM_append_true (a b : List GlobPattern) (v : List Char)
    (h : anyM a v = some true) : anyM (a ++ b) v = some true := by
  induction a with
  | nil => simp [anyM] at h
  | cons p ps ih =>
    rw [anyM_cons] at h
    rw [List.cons_append, anyM_cons]
    rcases hg : glob_match_prebuilt p v with _ | bb
    · rw [hg] at h
      simp at h
    · rw [hg] at h
      cases bb
      · simp only at h ⊢
        exact ih h
      · rfl

theorem anyM_append_false (a b : List GlobPattern) (v : List Char)
    (h : anyM a v = some false) : anyM (a ++ b) v = anyM b v := by
  induction a with
  | nil => simp [anyM]
  | cons p ps ih =>
    rw [anyM_cons] at h
    rw [List.cons_append, anyM_cons]
    rcases hg : glob_match_prebuilt p v with _ | bb
    · rw [hg] at h
      simp at h
    · rw [hg] at h
      cases bb
      · simp only at h ⊢
        exact ih h
      · simp at h

theorem combine_acc (ls : List GlobList) :
    ∀ acc : GlobList,
      ls.foldl
        (fun acc item =>
          ⟨acc.ignore_case_patterns ++ item.ignore_case_patterns,
           acc.case_sensitive_patterns ++ item.case_sensitive_patterns⟩) acc =
      GlobList.mk (acc.ignore_case_patterns ++ (GlobList.combine ls).ignore_case_patterns)
        (acc.case_sensitive_patterns ++ (GlobList.combine ls).case_sensitive_patterns) := by
  induction ls with
  | nil =>
    intro acc
    show acc = GlobList.mk (acc.ignore_case_patterns ++ []) (acc.case_sensitive_patterns ++ [])
    obtain ⟨ic, cs⟩ := acc
    simp
  | cons l ls ih =>
    intro acc
    show ls.foldl
        (fun acc item =>
          ⟨acc.ignore_case_patterns ++ item.ignore_case_patterns,
           acc.case_sensitive_patterns ++ item.case_sensitive_patterns⟩)
        (GlobList.mk (acc.ignore_case_patterns ++ l.ignore_case_patterns)
          (acc.case_sensitive_patterns ++ l.case_sensitive_patterns)) = _
    rw [ih (GlobList.mk (acc.ignore_case_patterns ++ l.ignore_case_patterns)
      (acc.case_sensitive_patterns ++ l.case_sensitive_patterns))]
    have h2 : GlobList.combine (l :: ls) =
        GlobList.mk (l.ignore_case_patterns ++ (GlobList.combine ls).ignore_case_patterns)
          (l.case_sensitive_patterns ++ (GlobList.combine ls).case_sensitive_patterns) := by
      show ls.foldl
          (fun acc item =>
            ⟨acc.ignore_case_patterns ++ item.ignore_case_patterns,
             acc.case_sensitive_patterns ++ item.case_sensitive_patterns⟩)
          (GlobList.mk ([] ++ l.ignore_case_patterns) ([] ++ l.case_sensitive_patterns)) = _
      rw [ih (GlobList.mk ([] ++ l.ignore_case_patterns) ([] ++ l.case_sensitive_patterns))]
      simp
    rw [h2]
    simp [List.append_assoc]

theorem combine_cons (l : GlobList) (ls : List GlobList) :
    GlobList.combine (l :: ls) =
      GlobList.mk (l.ignore_case_patterns ++ (GlobList.combine ls).ignore_case_patterns)
        (l.case_sensitive_patterns ++ (GlobList.combine ls).case_sensitive_patterns) := by
  show ls.foldl
      (fun acc item =>
        ⟨acc.ignore_case_patterns ++ item.ignore_case_patterns,
         acc.case_sensitive_patterns ++ item.case_sensitive_patterns⟩)
      (GlobList.mk ([] ++ l.ignore_case_patterns) ([] ++ l.case_sensitive_patterns)) = _
  rw [combine_acc ls (GlobList.mk ([] ++ l.ignore_case_patterns)
    ([] ++ l.case_sensitive_patterns))]
  simp

/-- C10 (amended): provided the combined evaluation does not panic,
`GlobList.combine` is a homomorphism for `any_match`: the combined list
reports a match exactly when some input list does. (Without the proviso the
statement fails: a panicking pattern in one list can abort the combined
evaluation before a later list's matching pattern is reached.) -/
theorem c10_amended_combine_any (ls : List GlobList) (v : List Char)
    (h : GlobList.any_match (GlobList.combine ls) v ≠ none) :
    (GlobList.any_match (GlobList.combine ls) v = some true ↔
      ∃ l ∈ ls, GlobList.any_match l v = some true) := by
  revert h
  induction ls with
  | nil =>
    intro h
    rw [show GlobList.any_match (GlobList.combine []) v = some false from rfl]
    simp
  | cons l ls ih =>
    intro h
    rw [combine_cons] at h ⊢
    rw [any_match_eq] at h ⊢
    dsimp only at h ⊢
    rcases hA1 : anyM l.ignore_case_patterns (toUpperStr v) with _ | b1
    · rw [anyM_append_none _ _ _ hA1] at h
      exact absurd rfl h
    · cases b1 with
      | true =>
        rw [anyM_append_true _ _ _ hA1] at h ⊢
        rcases hB : anyM (l.case_sensitive_patterns ++
            (GlobList.combine ls).case_sensitive_patterns) v with _ | b2
        · rw [hB] at h
          exact absurd rfl h
        · have hl : GlobList.any_match l v = some true := by
            rw [any_match_eq, hA1]
            rcases hB1 : anyM l.case_sensitive_patterns v with _ | b1'
            · rw [anyM_append_none _ _ _ hB1] at hB
              cases hB
            · rfl
          exact iff_of_true rfl ⟨l, List.mem_cons_self _ _, hl⟩
      | false =>
        rw [anyM_append_false _ _ _ hA1] at h ⊢
        rcases hB1 : anyM l.case_sensitive_patterns v with _ | b1'
        · rw [anyM_append_none _ _ _ hB1] at h ⊢
          exact absurd (seqOr_none_right _) h
        · cases b1' with
          | true =>
            rw [anyM_append_true _ _ _ hB1] at h ⊢
            rcases hA2 : anyM (GlobList.combine ls).ignore_case_patterns
                (toUpperStr v) with _ | a2
            · rw [hA2] at h
              exact absurd rfl h
            · have hl : GlobList.any_match l v = some true := by
                rw [any_match_eq, hA1, hB1]
                rfl
              refine iff_of_true ?_ ⟨l, List.mem_cons_self _ _, hl⟩
              rw [show seqOr (some a2) (some true) = some (a2 || true) from rfl, Bool.or_true]
          | false =>
            rw [anyM_append_false _ _ _ hB1] at h ⊢
            rw [← any_match_eq] at h ⊢
            rw [ih h]
            have hl : GlobList.any_match l v = some false := by
              rw [any_match_eq, hA1, hB1]
              rfl
            constructor
            · rintro ⟨x, hx, hxx⟩
              exact ⟨x, List.mem_cons_of_mem _ hx, hxx⟩
            · rintro ⟨x, hx, hxx⟩
              rcases List.mem_cons.mp hx with rfl | hx2
              · rw [hl] at hxx
                cases hxx
              · exact ⟨x, hx2, hxx⟩

/-- C10 (counterexample): the homomorphism claim fails as stated, because of
the ExactStart panic. Both lists compile from pattern strings via
`GlobList.build`; on subject "ab" the combined list panics inside the first
list's pattern "abc*x*" before reaching the second list's pattern "*", so
the combined `any_match` is not true although the second list's `any_match`
is. -/
theorem c10_counterexample :
    GlobList.build ["abc*x*".toList] =
      Except.ok (GlobList.mk [] [GlobPattern.Multipart [Multipart.ExactStart "abc".toList,
        Multipart.AnyUntil ['x'], Multipart.AnyEnd]]) ∧
    GlobList.build ["*".toList] = Except.ok (GlobList.mk [] [GlobPattern.MatchAny]) ∧
    ¬ (GlobList.any_match
        (GlobList.combine
          [GlobList.mk [] [GlobPattern.Multipart [Multipart.ExactStart "abc".toList,
            Multipart.AnyUntil ['x'], Multipart.AnyEnd]],
           GlobList.mk [] [GlobPattern.MatchAny]]) "ab".toList = some true ↔
      ∃ l ∈ [GlobList.mk [] [GlobPattern.Multipart [Multipart.ExactStart "abc".toList,
            Multipart.AnyUntil ['x'], Multipart.AnyEnd]],
          GlobList.mk [] [GlobPattern.MatchAny]],
        GlobList.any_match l "ab".toList = some true) := by
  refine ⟨rfl, rfl, ?_⟩
  intro hiff
  have hP1 : glob_match_prebuilt (GlobPattern.Multipart [Multipart.ExactStart "abc".toList,
      Multipart.AnyUntil ['x'], Multipart.AnyEnd]) "ab".toList = none := by
    simp [glob_match_prebuilt, outerLoop, exactStartLoop]
  have h2 : GlobList.any_match (GlobList.mk [] [GlobPattern.MatchAny]) "ab".toList =
      some true := rfl
  have h1 : GlobList.any_match
      (GlobList.combine
        [GlobList.mk [] [GlobPattern.Multipart [Multipart.ExactStart "abc".toList,
          Multipart.AnyUntil ['x'], Multipart.AnyEnd]],
         GlobList.mk [] [GlobPattern.MatchAny]]) "ab".toList = none := by
    rw [show GlobList.combine
        [GlobList.mk [] [GlobPattern.Multipart [Multipart.ExactStart "abc".toList,
          Multipart.AnyUntil ['x'], Multipart.AnyEnd]],
         GlobList.mk [] [GlobPattern.MatchAny]] =
        GlobList.mk [] [GlobPattern.Multipart [Multipart.ExactStart "abc".toList,
          Multipart.AnyUntil ['x'], Multipart.AnyEnd], GlobPattern.MatchAny] from rfl]
    rw [any_match_eq]
    rw [show anyM [] (toUpperStr "ab".toList) = some false from rfl]
    have hany : anyM [GlobPattern.Multipart [Multipart.ExactStart "abc".toList,
        Multipart.AnyUntil ['x'], Multipart.AnyEnd], GlobPattern.MatchAny] "ab".toList =
        none := by
      rw [anyM_cons, hP1]
    rw [hany]
    rfl
  have h3 := hiff.mpr ⟨GlobList.mk [] [GlobPattern.MatchAny], by simp, h2⟩
  rw [h1] at h3
  cases h3

/-- Witness for the C10 amended theorem on the singleton list containing the
pattern compiled from "*" and the empty subject. -/
theorem c10_amended_combine_any_witness :
    GlobList.any_match (GlobList.combine [GlobList.mk [] [GlobPattern.MatchAny]]) [] =
      some true ↔
    ∃ l ∈ [GlobList.mk [] [GlobPattern.MatchAny]], GlobList.any_match l [] = some true :=
  c10_amended_combine_any [GlobList.mk [] [GlobPattern.MatchAny]] []
    (fun hc => Option.noConfusion hc)
